import Mathlib

/-!
Verification of the Obelisk streaming-chat assembly engine.

This file gives a shallow embedding of the frontend core of the Obelisk chat
platform: the chunked line-framed stream decoder, the streaming event
interpreter and message assembler, the conversation-turn normalizers, and the
persisted application state store, all translated from
`src/frontend/static/js/main.js`, `src/frontend/static/js/conversation-parser.js`
and the session parser module, together with theorems settling the frozen
claims about them.

Strings coming from JavaScript are modelled as `String` (or `List Char` for
the character-level chunk decoder); absent/undefined/null JavaScript values
are modelled with `Option`; JavaScript truthiness on strings ("" is falsy) is
modelled explicitly by `truthyStr`.
-/

namespace Obelisk

/-! ## JavaScript value helpers -/

/-- Truthiness of an optional JavaScript string: `undefined`/`null` and the
empty string are falsy. -/
def truthyStr : Option String → Bool
  | none => false
  | some s => !(s == "")

/-- The JavaScript `a || b` on optional strings: yields `a` when truthy,
otherwise `b`. -/
def jsOr (a b : Option String) : Option String :=
  if truthyStr a then a else b

/-- JavaScript string coercion used by `+` concatenation: `undefined` prints
as the string "undefined". -/
def jsToStr : Option String → String
  | none => "undefined"
  | some s => s

/-! ## StreamFrameDecoder

Embeds the buffered chunk decoder of `handleStreamingResponse`
(`main.js` lines 1695-1788): `buffer += chunk`, split on newline, keep the
final fragment as the new buffer, and attempt one decode per complete line.
Chunks are sequences of characters (`List Char`). -/

/-- Prepend a character to the first complete line of a split result, or to
the carry-over buffer when no complete line exists yet. -/
def consLine (c : Char) : List (List Char) × List Char → List (List Char) × List Char
  | ([], buf) => ([], c :: buf)
  | (l :: ls, buf) => ((c :: l) :: ls, buf)

/-- Split a character sequence at newlines, JavaScript `split('\n')` style:
returns the complete lines (all but the last split field) and the trailing
(possibly empty) fragment, which the decoder keeps as its buffer. -/
def scanLines : List Char → List (List Char) × List Char
  | [] => ([], [])
  | c :: cs =>
    if c = '\n' then ([] :: (scanLines cs).1, (scanLines cs).2)
    else consLine c (scanLines cs)

/-- Run the decoder loop over a list of chunks starting from carry-over
buffer `buf`, producing the complete lines handed to per-line decoding, in
order. At end of stream the remaining buffer is dropped, exactly as in the
source where the loop exits on `done` without flushing. -/
def feedChunks : List Char → List (List Char) → List (List Char)
  | _, [] => []
  | buf, ch :: rest =>
    (scanLines (buf ++ ch)).1 ++ feedChunks (scanLines (buf ++ ch)).2 rest

/-- A classified line: an SSE `data: `-framed payload or a direct JSON line. -/
inductive RawFrame : Type
  | sse (payload : List Char)
  | direct (line : List Char)
deriving DecidableEq

/-- The literal `"data: "` line marker. -/
def dataMarker : List Char := ['d', 'a', 't', 'a', ':', ' ']

/-- Per-line framing of the source: skip lines that are blank after `trim`,
take the remainder of a `data: `-framed line, parse a line starting with
`{` directly, and skip anything else (keep-alive comments). -/
def classifyLine (l : List Char) : Option RawFrame :=
  if l.all (fun c => c.isWhitespace) then none
  else if dataMarker.isPrefixOf l then some (.sse (l.drop 6))
  else if l.head? = some '\x7b' then some (.direct l)
  else none

/-- Decode one line given a JSON parser `parse` (a parse failure, `none`, is
skipped and decoding continues, as in the source's per-line `try`/`catch`). -/
def decodeLine {E : Type} (parse : List Char → Option E) (l : List Char) : Option E :=
  match classifyLine l with
  | some (.sse payload) => parse payload
  | some (.direct line) => parse line
  | none => none

/-- The full stream decoder: feed the chunks through the buffered line
splitter and decode each complete line, skipping blank, non-data and
malformed lines. -/
def decodeStream {E : Type} (parse : List Char → Option E) (chunks : List (List Char)) : List E :=
  (feedChunks [] chunks).filterMap (decodeLine parse)

/-! ## StreamEvent payloads -/

/-- An event record decoded from one frame, with the fields the interpreter
and assembler inspect: the `event` tag, the top-level `content`, the nested
`data.content`, and the `error` text. Absent fields are `none`. -/
structure EventData where
  event : String
  content : Option String
  dataContent : Option String
  error : Option String
deriving DecidableEq

/-! ## MessageAssembler

Embeds the streaming-message functions of the function-based app in
`main.js`: `startStreamingMessage` (line 1485), `updateStreamingMessage`
(line 1509), `completeStreamingMessage` (line 1535) and
`handleStreamingError` (line 1568). The assembly state is the global
`currentStreamingMessage`, modelled as `Option StreamMsg`. -/

/-- The in-flight streaming message: only its accumulated text matters to the
assembly logic (ids and timestamps are presentation data). -/
structure StreamMsg where
  content : String
deriving DecidableEq

/-- `startStreamingMessage`: create a fresh in-flight message with empty
content. -/
def startStreamingMessage : Option StreamMsg := some ⟨""⟩

/-- `updateStreamingMessage(data)`: no-op when no message is in flight;
otherwise extract `data.data?.content || data.content` and append it when
truthy. -/
def updateStreamingMessage (st : Option StreamMsg) (d : EventData) : Option StreamMsg :=
  match st with
  | none => st
  | some m =>
    let c := jsOr d.dataContent d.content
    if truthyStr c then some ⟨m.content ++ jsToStr c⟩ else some m

/-- `completeStreamingMessage(data)`: no-op returning no message when no
message is in flight; otherwise override the accumulated content with
`data.data?.content || data.content` when that is truthy, finalize, and
clear the in-flight slot. Returns (new state, finalized message). -/
def completeStreamingMessage (st : Option StreamMsg) (d : EventData) :
    Option StreamMsg × Option StreamMsg :=
  match st with
  | none => (st, none)
  | some m =>
    let fc := jsOr d.dataContent d.content
    let final : StreamMsg := if truthyStr fc then ⟨jsToStr fc⟩ else m
    (none, some final)

/-- `handleStreamingError(data)`: when a message is in flight, replace its
rendered content with the error text (`data.error` or the generic fallback)
and clear the in-flight slot; otherwise leave the state untouched. Returns
(new state, user-visible error content written to the message, if any). -/
def handleStreamingError (st : Option StreamMsg) (d : EventData) :
    Option StreamMsg × Option String :=
  match st with
  | none => (st, none)
  | some _ =>
    (none, some (jsToStr (jsOr d.error (some "Failed to process message"))))

/-- The text accumulated by a run of delta events: the concatenation, in
arrival order, of the extracted texts of exactly those deltas whose extracted
content is truthy (the ones `updateStreamingMessage` appends). -/
def appendedDeltas : List EventData → String
  | [] => ""
  | d :: ds =>
    (if truthyStr (jsOr d.dataContent d.content)
     then jsToStr (jsOr d.dataContent d.content) else "") ++ appendedDeltas ds

/-! ## StreamEventInterpreter

Embeds the inline event switch of `handleStreamingResponse`
(`main.js` lines 1736-1776): `RunStarted` creates a fresh in-flight message,
`RunResponse` appends `eventData.content` to it, `RunCompleted` finalizes it
with `eventData.content` and clears it, `RunError` finalizes it as errored
and clears it; every other event tag falls through the switch unhandled. -/

/-- A message handled by the interpreter loop. `content` is `Option String`
because the source assigns `eventData.content` to it unchecked on
`RunCompleted`, which may store the JavaScript `undefined`. -/
structure RunMsg where
  id : Nat
  content : Option String
deriving DecidableEq

/-- The interpreter loop state: the in-flight message (the loop-local
`currentStreamingMessage`), the messages already finalized into the chat (in
finalization order), and a counter modelling fresh message-id generation. -/
structure InterpState where
  current : Option RunMsg
  finalized : List RunMsg
  nextId : Nat
deriving DecidableEq

/-- One step of the inline event switch. -/
def handleStreamEventStep (s : InterpState) (e : EventData) : InterpState :=
  if e.event = "RunStarted" then
    { s with current := some ⟨s.nextId, some ""⟩, nextId := s.nextId + 1 }
  else if e.event = "RunResponse" then
    match s.current with
    | some m => { s with current := some ⟨m.id, some (jsToStr m.content ++ jsToStr e.content)⟩ }
    | none => s
  else if e.event = "RunCompleted" then
    match s.current with
    | some m => { s with current := none, finalized := s.finalized ++ [⟨m.id, e.content⟩] }
    | none => s
  else if e.event = "RunError" then
    match s.current with
    | some m => { s with current := none, finalized := s.finalized ++ [m] }
    | none => s
  else s

/-- Run the interpreter over a sequence of events in arrival order. -/
def runInterp (s : InterpState) (es : List EventData) : InterpState :=
  es.foldl handleStreamEventStep s

/-- The initial interpreter state of a fresh response. -/
def initInterpState : InterpState := ⟨none, [], 0⟩

/-! ## ConversationNormalizer

Embeds `parseConversationTurns` (session parser module) and
`extractConversationMessages` (`main.js` line 2326 /
`conversation-parser.js` line 11), and separately
`SessionManager.extractMessages` (`main.js` line 840), which alone filters
assistant responses on `is_active !== false`. Timestamps are modelled as the
integer millisecond values the JavaScript `Date` subtraction comparator
works on. -/

/-- A turn's user message. -/
structure UserMessage where
  message_id : Option String
  content : Option String
  timestamp : Int
deriving DecidableEq

/-- One assistant response of a turn. -/
structure AssistantResponse where
  message_id : Option String
  final_content : Option String
  content : Option String
  timestamp : Int
  response_id : Option String
  is_active : Option Bool
deriving DecidableEq

/-- One conversation turn. -/
structure ConversationTurn where
  turn_id : Option String
  turn_number : Option Int
  user_message : Option UserMessage
  assistant_responses : Option (List AssistantResponse)
deriving DecidableEq

/-- A normalized flat message as emitted by `parseConversationTurns`. -/
structure Msg where
  id : Option String
  role : String
  content : Option String
  timestamp : Int
  turnId : Option String
  turnNumber : Option Int
deriving DecidableEq

/-- The messages one turn emits, in emission order: the user message when
present, then every assistant response in array order (no `is_active`
filtering in this normalizer); assistant content is
`final_content || content`. -/
def turnMessages (t : ConversationTurn) : List Msg :=
  (match t.user_message with
   | some u => [⟨u.message_id, "user", u.content, u.timestamp, t.turn_id, t.turn_number⟩]
   | none => []) ++
  (match t.assistant_responses with
   | some rs => rs.map (fun r =>
      ⟨r.message_id, "assistant", jsOr r.final_content r.content, r.timestamp,
       t.turn_id, t.turn_number⟩)
   | none => [])

/-- All messages emitted from the turn array, in emission order. -/
def emitMessages (turns : List ConversationTurn) : List Msg :=
  (turns.map turnMessages).flatten

/-- Stable insertion by timestamp: the inserted message goes before the first
element whose timestamp is greater than or equal to its own, so an element
inserted from earlier in the input stays before later equal-timestamp
elements. -/
def insertByTimestamp (m : Msg) : List Msg → List Msg
  | [] => [m]
  | x :: xs =>
    if m.timestamp ≤ x.timestamp then m :: x :: xs else x :: insertByTimestamp m xs

/-- Stable sort by timestamp, modelling the ECMAScript-mandated stable
`Array.prototype.sort` with the comparator `a.timestamp - b.timestamp`. -/
def sortByTimestamp : List Msg → List Msg
  | [] => []
  | m :: ms => insertByTimestamp m (sortByTimestamp ms)

/-- `parseConversationTurns`: emit every turn's messages, then stable-sort by
timestamp. -/
def parseConversationTurns (turns : List ConversationTurn) : List Msg :=
  sortByTimestamp (emitMessages turns)

/-- A session's conversation history object. `conversation_turns` is `none`
when the field is missing or null. -/
structure ConversationData where
  conversation_turns : Option (List ConversationTurn)
deriving DecidableEq

/-- `extractConversationMessages`: empty list when the conversation data is
null or lacks a `conversation_turns` array, otherwise parse the turns. -/
def extractConversationMessages (cd : Option ConversationData) : List Msg :=
  match cd with
  | none => []
  | some d =>
    match d.conversation_turns with
    | none => []
    | some turns => parseConversationTurns turns

/-- A message emitted by `SessionManager.extractMessages`. -/
structure SMessage where
  id : Option String
  role : String
  content : Option String
  timestamp : Int
deriving DecidableEq

/-- One turn of `SessionManager.extractMessages`: the user message when
present, then each assistant response in array order, included unless
`is_active` is explicitly `false`. -/
def extractMessagesTurn (t : ConversationTurn) : List SMessage :=
  (match t.user_message with
   | some u => [⟨u.message_id, "user", u.content, u.timestamp⟩]
   | none => []) ++
  (match t.assistant_responses with
   | some rs =>
     (rs.filter (fun r => !(r.is_active == some false))).map (fun r =>
       ⟨r.message_id, "assistant", jsOr r.final_content r.content, r.timestamp⟩)
   | none => [])

/-- `SessionManager.extractMessages` (`main.js` line 840): flatten the
per-turn messages in turn order, with no sorting step. -/
def extractMessages (turns : List ConversationTurn) : List SMessage :=
  (turns.map extractMessagesTurn).flatten

/-- Message count written from the specification's words (testable property
section): number of turns with a `user_message` plus the number of assistant
responses whose `is_active` is not explicitly `false`. -/
def specMessageCount (turns : List ConversationTurn) : Nat :=
  (turns.map (fun t =>
    (if t.user_message.isSome then 1 else 0) +
    ((t.assistant_responses.getD []).countP (fun r => !(r.is_active == some false))))).sum

/-! ## SessionStateStore

Embeds `AppState` of the class-based app (`main.js` lines 16-118):
`loadState` with its `version` gate, and `getConfigOverride`. Temperature is
modelled as a rational number. -/

/-- The in-memory pagination state. -/
structure Pagination where
  page : Int
  pageSize : Int
  total : Int
deriving DecidableEq

/-- A stored pagination blob: every key may be absent. -/
structure StoredPagination where
  page : Option Int
  pageSize : Option Int
  total : Option Int
deriving DecidableEq

/-- The in-memory generation configuration. -/
structure AiConfig where
  model : String
  temperature : ℚ
  max_tokens : Int
  streaming : Bool
  show_tool_calls : Bool
deriving DecidableEq

/-- A stored generation-configuration blob: every key may be absent. -/
structure StoredAiConfig where
  model : Option String
  temperature : Option ℚ
  max_tokens : Option Int
  streaming : Option Bool
  show_tool_calls : Option Bool
deriving DecidableEq

/-- A parsed stored state blob. -/
structure StoredState where
  version : Option String
  currentSessionId : Option String
  pagination : Option StoredPagination
  aiConfig : Option StoredAiConfig
deriving DecidableEq

/-- The application state fields `loadState` touches. -/
structure AppStateData where
  currentSessionId : Option String
  pagination : Pagination
  aiConfig : AiConfig
deriving DecidableEq

/-- The compiled default pagination (`AppState` constructor). -/
def defaultPagination : Pagination := ⟨1, 50, 0⟩

/-- The compiled default generation configuration (`AppState` constructor,
also re-declared verbatim inside `loadState` and `getConfigOverride`). -/
def defaultAiConfig : AiConfig :=
  ⟨"deepseek/deepseek-chat-v3-0324:free", 1, 5000, true, true⟩

/-- The compiled schema version tag written by `saveState`. -/
def schemaVersion : String := "1.1"

/-- The application state as built by the `AppState` constructor. -/
def defaultAppState : AppStateData := ⟨none, defaultPagination, defaultAiConfig⟩

/-- The spread merge `{ ...this.pagination, ...state.pagination }`: stored
keys win, absent keys keep the in-memory value. -/
def mergePagination (p : Pagination) (sp : Option StoredPagination) : Pagination :=
  match sp with
  | none => p
  | some s => ⟨s.page.getD p.page, s.pageSize.getD p.pageSize, s.total.getD p.total⟩

/-- The spread merge `{ ...this.aiConfig, ...state.aiConfig }` guarded by
`if (state.aiConfig)`: stored keys win, absent keys keep the in-memory
value. -/
def mergeAiConfig (c : AiConfig) (sc : Option StoredAiConfig) : AiConfig :=
  match sc with
  | none => c
  | some s =>
    ⟨s.model.getD c.model, s.temperature.getD c.temperature,
     s.max_tokens.getD c.max_tokens, s.streaming.getD c.streaming,
     s.show_tool_calls.getD c.show_tool_calls⟩

/-- The version gate `!state.version || state.version !== '1.1'` negated: the
stored version is current exactly when it is present and equal to the
compiled schema version (an absent or empty version is falsy and fails the
gate, as does any other string). -/
def versionIsCurrent (v : Option String) : Bool :=
  match v with
  | none => false
  | some s => s == schemaVersion

/-- What `localStorage.getItem` + `JSON.parse` produced: no blob, a blob that
throws on parse, or a parsed stored state. -/
inductive StoredBlob : Type
  | absent
  | unparseable
  | parsed (s : StoredState)
deriving DecidableEq

/-- `AppState.loadState`: leave the state untouched when the blob is absent
or unparseable (the surrounding `try`/`catch` swallows the parse error);
otherwise reset `aiConfig` to compiled defaults unless the stored version
matches, in which case merge the stored config over the current one, and
always overwrite `currentSessionId` from storage and spread-merge
`pagination`. -/
def loadState (st : AppStateData) (b : StoredBlob) : AppStateData :=
  match b with
  | .absent => st
  | .unparseable => st
  | .parsed s =>
    { currentSessionId := s.currentSessionId,
      pagination := mergePagination st.pagination s.pagination,
      aiConfig :=
        if versionIsCurrent s.version then mergeAiConfig st.aiConfig s.aiConfig
        else defaultAiConfig }

/-- The config override object: at most the three tracked keys. -/
structure ConfigOverride where
  model : Option String
  temperature : Option ℚ
  max_tokens : Option Int
deriving DecidableEq

/-- `AppState.getConfigOverride`: collect the tracked fields differing from
the compiled defaults; return `null` (`none`) when no key was collected. -/
def getConfigOverride (c : AiConfig) : Option ConfigOverride :=
  let o : ConfigOverride :=
    { model := if c.model ≠ defaultAiConfig.model then some c.model else none,
      temperature :=
        if c.temperature ≠ defaultAiConfig.temperature then some c.temperature else none,
      max_tokens :=
        if c.max_tokens ≠ defaultAiConfig.max_tokens then some c.max_tokens else none }
  if o.model = none ∧ o.temperature = none ∧ o.max_tokens = none then none else some o

/-- View an in-memory pagination as a fully-populated stored pagination, for
comparing a load result against what storage held. -/
def paginationAsStored (p : Pagination) : StoredPagination :=
  ⟨some p.page, some p.pageSize, some p.total⟩

/-! ## Concrete inputs used to settle claims -/

/-- An assistant response explicitly marked inactive. -/
def inactiveResponse : AssistantResponse :=
  ⟨some "m1", none, some "hello", 5, some "r1", some false⟩

/-- A turn with no user message and one explicitly inactive response. -/
def inactiveTurn : ConversationTurn :=
  ⟨some "t1", some 1, none, some [inactiveResponse]⟩

/-- A stored blob with a stale version and a partially-populated pagination
(only `page` present). -/
def mismatchedBlob : StoredState :=
  ⟨some "1.0", some "abc", some ⟨some 3, none, none⟩, none⟩

/-! ## Decoder lemmas -/

/-- Splitting a concatenation: the lines of `a ++ b` are the complete lines
of `a` followed by the lines obtained from feeding `a`'s trailing fragment
before `b`; the final fragments agree likewise. -/
theorem scanLines_append (a b : List Char) :
    scanLines (a ++ b) =
      ((scanLines a).1 ++ (scanLines ((scanLines a).2 ++ b)).1,
       (scanLines ((scanLines a).2 ++ b)).2) := by
  induction a with
  | nil => simp [scanLines]
  | cons c a ih =>
    by_cases hc : c = '\n'
    · subst hc
      simp [scanLines, ih]
    · rcases hsa : scanLines a with ⟨ls, buf⟩
      rcases ls with _ | ⟨l, ls'⟩
      · simp [scanLines, hc, ih, hsa, consLine]
      · simp [scanLines, hc, ih, hsa, consLine]

/-- A newline-free text splits into no complete line and itself as the
fragment. -/
theorem scanLines_of_no_newline (l : List Char) (h : '\n' ∉ l) :
    scanLines l = ([], l) := by
  induction l with
  | nil => simp [scanLines]
  | cons c cs ih =>
    simp only [List.mem_cons, not_or] at h
    have hc : c ≠ '\n' := fun e => h.1 e.symm
    simp [scanLines, hc, ih h.2, consLine]

/-- The carry-over fragment never contains a newline. -/
theorem newline_not_mem_scanLines_snd (l : List Char) : '\n' ∉ (scanLines l).2 := by
  induction l with
  | nil => simp [scanLines]
  | cons c cs ih =>
    by_cases hc : c = '\n'
    · subst hc
      simpa [scanLines] using ih
    · rcases hsa : scanLines cs with ⟨ls, buf⟩
      rcases ls with _ | ⟨l', ls'⟩
      · simp only [scanLines, if_neg hc, hsa, consLine]
        simp only [hsa] at ih
        simpa using ⟨fun e => hc e.symm, ih⟩
      · simp only [scanLines, if_neg hc, hsa, consLine]
        simpa only [hsa] using ih

/-- The complete lines the chunked loop hands to per-line decoding are
exactly the complete lines of the buffer followed by the concatenated
remaining chunks. -/
theorem feedChunks_eq (cs : List (List Char)) :
    ∀ buf : List Char, '\n' ∉ buf →
      feedChunks buf cs = (scanLines (buf ++ cs.flatten)).1 := by
  induction cs with
  | nil =>
    intro buf h
    simp [feedChunks, scanLines_of_no_newline buf h]
  | cons ch rest ih =>
    intro buf _
    simp only [feedChunks, List.flatten_cons]
    rw [ih _ (newline_not_mem_scanLines_snd _), ← List.append_assoc,
      scanLines_append (buf ++ ch) rest.flatten]

/-- C1: For every event payload text and every way of splitting that text
into a sequence of chunks (including one character per chunk), feeding the
chunks through the streaming response decoder yields exactly the same
sequence of decoded JSON event records as feeding the entire text as a
single chunk, for any choice of per-payload JSON parser. -/
theorem decodeStream_chunk_invariant {E : Type} (parse : List Char → Option E)
    (chunks : List (List Char)) :
    decodeStream parse chunks = decodeStream parse [chunks.flatten] := by
  unfold decodeStream
  rw [feedChunks_eq chunks [] (by simp), feedChunks_eq [chunks.flatten] [] (by simp)]
  simp

/-! ## Assembler lemmas -/

/-- Folding delta events over an in-flight message appends exactly the
truthy extracted texts, in arrival order. -/
theorem foldl_updateStreamingMessage (ds : List EventData) :
    ∀ acc : String,
      ds.foldl updateStreamingMessage (some ⟨acc⟩) = some ⟨acc ++ appendedDeltas ds⟩ := by
  induction ds with
  | nil =>
    intro acc
    simp [appendedDeltas]
  | cons d ds ih =>
    intro acc
    simp only [List.foldl_cons, appendedDeltas, updateStreamingMessage]
    by_cases h : truthyStr (jsOr d.dataContent d.content)
    · simp [h, ih, String.append_assoc]
    · simp [h, ih]

/-- C2: When the interpreter is streaming and a Completed event arrives, the
finalized content equals the event's extracted final text when that text is
present and non-empty (it overrides the accumulated buffer), and otherwise
equals the concatenation, in arrival order, of all previously appended delta
texts. -/
theorem streaming_completed_content (ds : List EventData) (e : EventData) :
    (completeStreamingMessage (ds.foldl updateStreamingMessage startStreamingMessage) e).2 =
      some ⟨if truthyStr (jsOr e.dataContent e.content)
            then jsToStr (jsOr e.dataContent e.content)
            else appendedDeltas ds⟩ := by
  rw [show startStreamingMessage = some ⟨""⟩ from rfl, foldl_updateStreamingMessage ds ""]
  by_cases h : truthyStr (jsOr e.dataContent e.content) <;>
    simp [completeStreamingMessage, h]

/-- C8: Calling complete() or fail() when no in-flight streaming message
exists is a no-op: the assembly state stays empty and no message and no
error content is produced, whatever the event payload. -/
theorem complete_fail_no_inflight_noop (d : EventData) :
    completeStreamingMessage none d = (none, none) ∧
    handleStreamingError none d = (none, none) :=
  ⟨rfl, rfl⟩

/-! ## Interpreter theorems -/

/-- C7 counterexample: after a stream reaches the terminal Completed state, a
further RunStarted event is not ignored — it changes the assembly state by
opening a fresh in-flight message. -/
theorem post_terminal_runStarted_changes_state :
    handleStreamEventStep
        (runInterp initInterpState
          [⟨"RunStarted", none, none, none⟩, ⟨"RunResponse", some "Hi", none, none⟩,
           ⟨"RunCompleted", some "Hi", none, none⟩])
        ⟨"RunStarted", none, none, none⟩ ≠
      runInterp initInterpState
        [⟨"RunStarted", none, none, none⟩, ⟨"RunResponse", some "Hi", none, none⟩,
         ⟨"RunCompleted", some "Hi", none, none⟩] := by
  decide

/-- C7 (amended): once no message is in flight (the state after Completed or
Errored), every received event other than RunStarted leaves the whole
interpreter state — in particular every finalized message's content —
unchanged, and even a RunStarted event leaves the finalized messages
unchanged. -/
theorem post_terminal_events_ignored (s : InterpState) (e : EventData)
    (h : s.current = none) :
    (e.event ≠ "RunStarted" → handleStreamEventStep s e = s) ∧
    (handleStreamEventStep s e).finalized = s.finalized := by
  constructor
  · intro hne
    unfold handleStreamEventStep
    split_ifs with h1 h2 h3 h4
    · exact absurd h1 hne
    · simp [h]
    · simp [h]
    · simp [h]
    · rfl
  · unfold handleStreamEventStep
    split_ifs with h1 h2 h3 h4 <;> simp [h]

/-- Witness for the amended C7 theorem at a concrete post-terminal state and
a concrete keepalive event. -/
theorem post_terminal_events_ignored_witness :
    handleStreamEventStep ⟨none, [⟨0, some "Hi"⟩], 1⟩ ⟨"keepalive", none, none, none⟩ =
        ⟨none, [⟨0, some "Hi"⟩], 1⟩ ∧
      (handleStreamEventStep ⟨none, [⟨0, some "Hi"⟩], 1⟩
          ⟨"keepalive", none, none, none⟩).finalized = [⟨0, some "Hi"⟩] :=
  ⟨(post_terminal_events_ignored ⟨none, [⟨0, some "Hi"⟩], 1⟩
      ⟨"keepalive", none, none, none⟩ rfl).1 (by decide),
   (post_terminal_events_ignored ⟨none, [⟨0, some "Hi"⟩], 1⟩
      ⟨"keepalive", none, none, none⟩ rfl).2⟩

/-! ## Normalizer lemmas -/

/-- Per-turn message count of `SessionManager.extractMessages`: one for a
present user message plus the responses not explicitly inactive. -/
theorem length_extractMessagesTurn (t : ConversationTurn) :
    (extractMessagesTurn t).length =
      (if t.user_message.isSome then 1 else 0) +
      ((t.assistant_responses.getD []).countP (fun r => !(r.is_active == some false))) := by
  unfold extractMessagesTurn
  rcases hu : t.user_message with _ | u <;> rcases hr : t.assistant_responses with _ | rs <;>
    (simp [hu, hr, List.countP_eq_length_filter]; try omega)

/-- C3 (amended): for every turn array, the number of messages produced by
`SessionManager.extractMessages` equals the number of turns with a user
message plus the number of assistant responses whose `is_active` is not
explicitly false. -/
theorem extractMessages_length_eq_specMessageCount (turns : List ConversationTurn) :
    (extractMessages turns).length = specMessageCount turns := by
  induction turns with
  | nil => simp [extractMessages, specMessageCount]
  | cons t ts ih =>
    simp only [extractMessages, specMessageCount, List.map_cons, List.flatten_cons,
      List.sum_cons, List.length_append] at ih ⊢
    rw [length_extractMessagesTurn, ih]

/-- C3 counterexample: the dedicated conversation parser
(`extractConversationMessages`) emits a message for an assistant response
whose `is_active` is explicitly false, so its output length differs from the
claimed count there. -/
theorem extractConversationMessages_count_counterexample :
    (extractConversationMessages (some ⟨some [inactiveTurn]⟩)).length ≠
      specMessageCount [inactiveTurn] := by
  decide

/-- Membership in a stable insertion. -/
theorem mem_insertByTimestamp {a m : Msg} {l : List Msg} :
    a ∈ insertByTimestamp m l ↔ a = m ∨ a ∈ l := by
  induction l with
  | nil => simp [insertByTimestamp]
  | cons x xs ih =>
    by_cases h : m.timestamp ≤ x.timestamp
    · simp [insertByTimestamp, h]
    · simp only [insertByTimestamp, if_neg h, List.mem_cons, ih]
      tauto

/-- Stable insertion preserves sortedness by timestamp. -/
theorem pairwise_insertByTimestamp {m : Msg} {l : List Msg}
    (hl : l.Pairwise (fun a b => a.timestamp ≤ b.timestamp)) :
    (insertByTimestamp m l).Pairwise (fun a b => a.timestamp ≤ b.timestamp) := by
  induction l with
  | nil => simp [insertByTimestamp]
  | cons x xs ih =>
    rcases List.pairwise_cons.1 hl with ⟨hx, hxs⟩
    by_cases h : m.timestamp ≤ x.timestamp
    · rw [insertByTimestamp, if_pos h]
      refine List.pairwise_cons.2 ⟨?_, hl⟩
      intro b hb
      rcases List.mem_cons.1 hb with rfl | hb
      · exact h
      · exact le_trans h (hx b hb)
    · rw [insertByTimestamp, if_neg h]
      refine List.pairwise_cons.2 ⟨?_, ih hxs⟩
      intro b hb
      rcases mem_insertByTimestamp.1 hb with rfl | hb
      · exact le_of_not_le h
      · exact hx b hb

/-- The stable sort is sorted: timestamps are non-decreasing. -/
theorem pairwise_sortByTimestamp (l : List Msg) :
    (sortByTimestamp l).Pairwise (fun a b => a.timestamp ≤ b.timestamp) := by
  induction l with
  | nil => simp [sortByTimestamp]
  | cons m ms ih =>
    rw [sortByTimestamp]
    exact pairwise_insertByTimestamp ih

/-- Filtering one timestamp class out of a stable insertion: the inserted
message lands in front of the class exactly when it belongs to it, because
every element the insertion passes over has a strictly smaller timestamp. -/
theorem filter_insertByTimestamp (m : Msg) (l : List Msg) (t : Int) :
    (insertByTimestamp m l).filter (fun x => x.timestamp == t) =
      if m.timestamp == t then m :: l.filter (fun x => x.timestamp == t)
      else l.filter (fun x => x.timestamp == t) := by
  induction l with
  | nil =>
    by_cases h : m.timestamp == t <;> simp [insertByTimestamp, h]
  | cons x xs ih =>
    by_cases h : m.timestamp ≤ x.timestamp
    · rw [insertByTimestamp, if_pos h]
      by_cases hm : (m.timestamp == t) <;> simp [List.filter_cons, hm]
    · rw [insertByTimestamp, if_neg h]
      by_cases hm : (m.timestamp == t)
      · have hx : ¬ (x.timestamp == t) := by
          have hlt : x.timestamp < m.timestamp := lt_of_not_le h
          have hmt : m.timestamp = t := by simpa using hm
          simp only [beq_iff_eq]
          omega
        simp [List.filter_cons, hx, hm, ih]
      · by_cases hx : (x.timestamp == t) <;> simp [List.filter_cons, hx, hm, ih]

/-- Stable sorting does not change any timestamp class: ties keep their
original emission order. -/
theorem filter_sortByTimestamp (l : List Msg) (t : Int) :
    (sortByTimestamp l).filter (fun x => x.timestamp == t) =
      l.filter (fun x => x.timestamp == t) := by
  induction l with
  | nil => simp [sortByTimestamp]
  | cons m ms ih =>
    rw [sortByTimestamp, filter_insertByTimestamp]
    by_cases hm : (m.timestamp == t) <;> simp [List.filter_cons, hm, ih]

/-- C4: For every input turns array the normalized message list is
non-decreasing by timestamp, and each timestamp class of the output equals
the same class of the emission order (user message before same-turn
assistant responses, assistant responses in array order), so equal-timestamp
messages retain their original emission order. -/
theorem parseConversationTurns_sorted_stable (turns : List ConversationTurn) :
    (parseConversationTurns turns).Pairwise (fun a b => a.timestamp ≤ b.timestamp) ∧
    ∀ t : Int,
      (parseConversationTurns turns).filter (fun m => m.timestamp == t) =
        (emitMessages turns).filter (fun m => m.timestamp == t) :=
  ⟨pairwise_sortByTimestamp _, fun t => filter_sortByTimestamp _ t⟩

/-- C9: For every session document whose conversation data is null or lacks a
`conversation_turns` array, normalization returns an empty message list (and,
being a total function, throws nothing). -/
theorem extractConversationMessages_degraded :
    extractConversationMessages none = [] ∧
    ∀ cd : ConversationData, cd.conversation_turns = none →
      extractConversationMessages (some cd) = [] := by
  refine ⟨rfl, ?_⟩
  intro cd h
  simp [extractConversationMessages, h]

/-- Witness for C9 at the concrete document carrying no turns array. -/
theorem extractConversationMessages_degraded_witness :
    extractConversationMessages (some ⟨none⟩) = [] :=
  extractConversationMessages_degraded.2 ⟨none⟩ rfl

/-! ## State store theorems -/

/-- C5 counterexample: with a stale version and a stored pagination carrying
only `page`, the loaded pagination is the merge with compiled defaults, not
the stored pagination verbatim. -/
theorem loadState_pagination_not_verbatim :
    some (paginationAsStored ((loadState defaultAppState (.parsed mismatchedBlob)).pagination)) ≠
      mismatchedBlob.pagination := by
  decide

/-- C5 (amended): on a version mismatch `loadState` resets `aiConfig` to the
exact compiled defaults and takes `currentSessionId` verbatim from storage;
`pagination` is the key-by-key spread of the stored keys over the defaults,
hence equal to the stored pagination exactly whenever all its keys are
present; on a version match the stored `aiConfig` keys merge over the
defaults with stored values winning. -/
theorem loadState_version_gate (s : StoredState) :
    (s.version ≠ some schemaVersion →
      (loadState defaultAppState (.parsed s)).aiConfig = defaultAiConfig) ∧
    (loadState defaultAppState (.parsed s)).currentSessionId = s.currentSessionId ∧
    (loadState defaultAppState (.parsed s)).pagination =
      mergePagination defaultPagination s.pagination ∧
    (∀ p q r : Int, s.pagination = some ⟨some p, some q, some r⟩ →
      (loadState defaultAppState (.parsed s)).pagination = ⟨p, q, r⟩) ∧
    (s.version = some schemaVersion →
      (loadState defaultAppState (.parsed s)).aiConfig =
        mergeAiConfig defaultAiConfig s.aiConfig) := by
  refine ⟨?_, rfl, rfl, ?_, ?_⟩
  · intro h
    rcases hv : s.version with _ | v
    · simp [loadState, versionIsCurrent, hv]
    · have hvne : ¬ (v == schemaVersion) := by
        simp only [beq_iff_eq]
        intro e
        exact h (by rw [hv, e])
      simp [loadState, versionIsCurrent, hv, hvne]
  · intro p q r hp
    simp [loadState, mergePagination, hp]
  · intro h
    simp [loadState, versionIsCurrent, h, defaultAppState]

/-- Witness for the amended C5 theorem at a concrete stale blob with a fully
populated pagination. -/
theorem loadState_version_gate_witness :
    (loadState defaultAppState
        (.parsed ⟨some "1.0", some "abc", some ⟨some 3, some 7, some 9⟩, none⟩)).aiConfig =
      defaultAiConfig ∧
    (loadState defaultAppState
        (.parsed ⟨some "1.0", some "abc", some ⟨some 3, some 7, some 9⟩, none⟩)).currentSessionId =
      some "abc" ∧
    (loadState defaultAppState
        (.parsed ⟨some "1.0", some "abc", some ⟨some 3, some 7, some 9⟩, none⟩)).pagination =
      ⟨3, 7, 9⟩ := by
  have h := loadState_version_gate ⟨some "1.0", some "abc", some ⟨some 3, some 7, some 9⟩, none⟩
  exact ⟨h.1 (by decide), h.2.1, h.2.2.2.1 3 7 9 rfl⟩

/-- C6: `getConfigOverride` returns the none sentinel exactly when model,
temperature and max_tokens all equal the compiled defaults; otherwise the
returned object holds, key by key, exactly the differing values and nothing
else. -/
theorem getConfigOverride_characterization (c : AiConfig) :
    (getConfigOverride c = none ↔
      (c.model = defaultAiConfig.model ∧ c.temperature = defaultAiConfig.temperature ∧
       c.max_tokens = defaultAiConfig.max_tokens)) ∧
    ∀ o : ConfigOverride, getConfigOverride c = some o →
      o.model = (if c.model = defaultAiConfig.model then none else some c.model) ∧
      o.temperature =
        (if c.temperature = defaultAiConfig.temperature then none else some c.temperature) ∧
      o.max_tokens =
        (if c.max_tokens = defaultAiConfig.max_tokens then none else some c.max_tokens) := by
  by_cases h1 : c.model = defaultAiConfig.model <;>
    by_cases h2 : c.temperature = defaultAiConfig.temperature <;>
      by_cases h3 : c.max_tokens = defaultAiConfig.max_tokens <;>
        simp [getConfigOverride, h1, h2, h3]

/-- Witness for C6: a config differing only in the model yields an override
holding exactly that key. -/
theorem getConfigOverride_characterization_witness :
    (⟨some "x", none, none⟩ : ConfigOverride).model = some "x" ∧
    (⟨some "x", none, none⟩ : ConfigOverride).temperature = none ∧
    (⟨some "x", none, none⟩ : ConfigOverride).max_tokens = none := by
  have h := (getConfigOverride_characterization
      { defaultAiConfig with model := "x" }).2 ⟨some "x", none, none⟩ (by decide)
  refine ⟨h.1.trans ?_, h.2.1.trans ?_, h.2.2.trans ?_⟩ <;> decide

/-- C10: when the persisted blob exists but cannot be parsed as JSON, the
catch-all in `loadState` leaves every application-state field at its
compiled default. -/
theorem loadState_unparseable_keeps_defaults :
    loadState defaultAppState StoredBlob.unparseable = defaultAppState :=
  rfl

end Obelisk
